import Mathlib

/-!
Shallow embedding of the pulldown-cmark core (`src/lib.rs`) and its chunking
layer (`src/chunk.rs`).

Rust strings are modelled as `List Char` (Unicode scalar values); Rust byte
offsets and `str::len()` are modelled through `utf8Len`, the sum of the UTF-8
byte sizes of the characters.  `CowStr` payloads become `String`.  The
`usize`/`u64` integers become `Nat`; the (signed, inferred `i32`) depth counter
of the chunker becomes `Int`.
-/

namespace Cmark

/- ===== Data model from src/lib.rs ===== -/

/-- Heading level, `enum HeadingLevel { H1 = 1, H2, H3, H4, H5, H6 }`. -/
inductive HeadingLevel where
  | H1 | H2 | H3 | H4 | H5 | H6
deriving DecidableEq, Repr

/-- The integer discriminant of a heading level as declared in the source
(`H1 = 1` and successors). -/
def HeadingLevel.toNat : HeadingLevel → Nat
  | .H1 => 1
  | .H2 => 2
  | .H3 => 3
  | .H4 => 4
  | .H5 => 5
  | .H6 => 6

/-- Error type `struct InvalidHeadingLevel(usize)` carrying the invalid input. -/
structure InvalidHeadingLevel where
  val : Nat
deriving DecidableEq, Repr

/-- `impl TryFrom<usize> for HeadingLevel`. -/
def HeadingLevel.try_from (value : Nat) : Except InvalidHeadingLevel HeadingLevel :=
  match value with
  | 1 => .ok .H1
  | 2 => .ok .H2
  | 3 => .ok .H3
  | 4 => .ok .H4
  | 5 => .ok .H5
  | 6 => .ok .H6
  | _ => .error ⟨value⟩

/-- `enum CodeBlockKind`. -/
inductive CodeBlockKind where
  | Indented
  | Fenced (lang : String)
deriving DecidableEq, Repr

/-- `enum BlockQuoteKind`. -/
inductive BlockQuoteKind where
  | Note | Tip | Important | Warning | Caution
deriving DecidableEq, Repr

/-- `enum ContainerKind`. -/
inductive ContainerKind where
  | Default | Spoiler
deriving DecidableEq, Repr

/-- `enum MetadataBlockKind`. -/
inductive MetadataBlockKind where
  | YamlStyle | PlusesStyle
deriving DecidableEq, Repr

/-- `enum Alignment` (table column alignment). -/
inductive Alignment where
  | None | Left | Center | Right
deriving DecidableEq, Repr

/-- `enum LinkType`. -/
inductive LinkType where
  | Inline
  | Reference
  | ReferenceUnknown
  | Collapsed
  | CollapsedUnknown
  | Shortcut
  | ShortcutUnknown
  | Autolink
  | Email
  | WikiLink (has_pothole : Bool)
deriving DecidableEq, Repr

/-- `enum Tag<'a>`: the opening of a structural construct, with its full
payload (`CowStr` payloads modelled as `String`). -/
inductive Tag where
  | Paragraph
  | Heading (level : HeadingLevel) (id : Option String) (classes : List String)
      (attrs : List (String × Option String))
  | BlockQuote (kind : Option BlockQuoteKind)
  | CodeBlock (kind : CodeBlockKind)
  | ContainerBlock (kind : ContainerKind) (label : String)
  | HtmlBlock
  | List (start : Option Nat)
  | Item
  | FootnoteDefinition (label : String)
  | DefinitionList
  | DefinitionListTitle
  | DefinitionListDefinition
  | Table (alignments : List Alignment)
  | TableHead
  | TableRow
  | TableCell
  | Emphasis
  | Strong
  | Strikethrough
  | Superscript
  | Subscript
  | Link (link_type : LinkType) (dest_url : String) (title : String) (id : String)
  | Image (link_type : LinkType) (dest_url : String) (title : String) (id : String)
  | MetadataBlock (kind : MetadataBlockKind)
deriving DecidableEq, Repr

/-- `enum TagEnd`: the minimal closing marker. -/
inductive TagEnd where
  | Paragraph
  | Heading (level : HeadingLevel)
  | BlockQuote (kind : Option BlockQuoteKind)
  | CodeBlock
  | ContainerBlock (kind : ContainerKind)
  | HtmlBlock
  | List (ordered : Bool)
  | Item
  | FootnoteDefinition
  | DefinitionList
  | DefinitionListTitle
  | DefinitionListDefinition
  | Table
  | TableHead
  | TableRow
  | TableCell
  | Emphasis
  | Strong
  | Strikethrough
  | Superscript
  | Subscript
  | Link
  | Image
  | MetadataBlock (kind : MetadataBlockKind)
deriving DecidableEq, Repr

/-- `Tag::to_end`. -/
def Tag.to_end : Tag → TagEnd
  | .Paragraph => .Paragraph
  | .Heading level _ _ _ => .Heading level
  | .BlockQuote kind => .BlockQuote kind
  | .CodeBlock _ => .CodeBlock
  | .ContainerBlock kind _ => .ContainerBlock kind
  | .HtmlBlock => .HtmlBlock
  | .List number => .List number.isSome
  | .Item => .Item
  | .FootnoteDefinition _ => .FootnoteDefinition
  | .Table _ => .Table
  | .TableHead => .TableHead
  | .TableRow => .TableRow
  | .TableCell => .TableCell
  | .Subscript => .Subscript
  | .Superscript => .Superscript
  | .Emphasis => .Emphasis
  | .Strong => .Strong
  | .Strikethrough => .Strikethrough
  | .Link _ _ _ _ => .Link
  | .Image _ _ _ _ => .Image
  | .MetadataBlock kind => .MetadataBlock kind
  | .DefinitionList => .DefinitionList
  | .DefinitionListTitle => .DefinitionListTitle
  | .DefinitionListDefinition => .DefinitionListDefinition

/-- `enum Event<'a>` (text payloads as `String`). -/
inductive Event where
  | Start (tag : Tag)
  | End (tag_end : TagEnd)
  | Text (s : String)
  | Code (s : String)
  | InlineMath (s : String)
  | DisplayMath (s : String)
  | Html (s : String)
  | InlineHtml (s : String)
  | FootnoteReference (s : String)
  | SoftBreak
  | HardBreak
  | Rule
  | TaskListMarker (checked : Bool)
deriving DecidableEq, Repr

/-- `struct Options: u32` bitflags, modelled as the underlying bit set. -/
structure Options where
  bits : Nat
deriving DecidableEq, Repr

def Options.empty : Options := ⟨0⟩

def Options.ENABLE_TABLES : Options := ⟨1 <<< 1⟩

def Options.ENABLE_FOOTNOTES : Options := ⟨1 <<< 2⟩

def Options.ENABLE_STRIKETHROUGH : Options := ⟨1 <<< 3⟩

def Options.ENABLE_TASKLISTS : Options := ⟨1 <<< 4⟩

def Options.ENABLE_SMART_PUNCTUATION : Options := ⟨1 <<< 5⟩

def Options.ENABLE_HEADING_ATTRIBUTES : Options := ⟨1 <<< 6⟩

def Options.ENABLE_YAML_STYLE_METADATA_BLOCKS : Options := ⟨1 <<< 7⟩

def Options.ENABLE_PLUSES_DELIMITED_METADATA_BLOCKS : Options := ⟨1 <<< 8⟩

/-- `ENABLE_OLD_FOOTNOTES = (1 << 9) | (1 << 2)`: the old-syntax flag literally
includes the `ENABLE_FOOTNOTES` bit. -/
def Options.ENABLE_OLD_FOOTNOTES : Options := ⟨(1 <<< 9) ||| (1 <<< 2)⟩

def Options.ENABLE_MATH : Options := ⟨1 <<< 10⟩

def Options.ENABLE_GFM : Options := ⟨1 <<< 11⟩

def Options.ENABLE_DEFINITION_LIST : Options := ⟨1 <<< 12⟩

def Options.ENABLE_SUPERSCRIPT : Options := ⟨1 <<< 13⟩

def Options.ENABLE_SUBSCRIPT : Options := ⟨1 <<< 14⟩

def Options.ENABLE_WIKILINKS : Options := ⟨1 <<< 15⟩

def Options.ENABLE_CONTAINER_EXTENSIONS : Options := ⟨1 <<< 16⟩

/-- `bitflags`' `contains`: all bits of `other` are present in `self`. -/
def Options.contains (o other : Options) : Bool :=
  o.bits &&& other.bits == other.bits

/-- `Options::has_gfm_footnotes`. -/
def Options.has_gfm_footnotes (o : Options) : Bool :=
  o.contains Options.ENABLE_FOOTNOTES && !(o.contains Options.ENABLE_OLD_FOOTNOTES)

/- ===== Byte-offset string model ===== -/

/-- Rust `str::len()`: total UTF-8 byte length of a character sequence. -/
def utf8Len (s : List Char) : Nat := (s.map Char.utf8Size).sum

/-- Helper for `utf8Slice`, tracking the byte position of the current
character. -/
def utf8SliceAux : List Char → Nat → Nat → Nat → List Char
  | [], _, _, _ => []
  | c :: rest, pos, start, stop =>
    let next := pos + c.utf8Size
    if start ≤ pos ∧ next ≤ stop then c :: utf8SliceAux rest next start stop
    else utf8SliceAux rest next start stop

/-- Rust byte-indexed slicing `&text[start..stop]`: the characters whose UTF-8
byte span lies inside the half-open byte range.  At character-boundary offsets
(the only offsets the parser contract produces) this is the exact slice. -/
def utf8Slice (s : List Char) (start stop : Nat) : List Char :=
  utf8SliceAux s 0 start stop

/-- Rust `str::trim`: drop leading and trailing whitespace characters.
`Char.isWhitespace` stands in for Rust's Unicode `char::is_whitespace`;
the two agree on the ASCII whitespace relevant here. -/
def trimChars (s : List Char) : List Char :=
  ((s.dropWhile Char.isWhitespace).reverse.dropWhile Char.isWhitespace).reverse

/-- Helper for `charIndicesNth`: remaining characters, characters still to
skip, byte position reached so far. -/
def charIndicesNthAux : List Char → Nat → Nat → Option Nat
  | [], _, _ => none
  | _ :: _, 0, pos => some pos
  | c :: rest, n + 1, pos => charIndicesNthAux rest n (pos + c.utf8Size)

/-- Rust `s.char_indices().nth(n)`, restricted to the byte-position component
that the truncation code destructures: the byte offset of the `n`-th character
when it exists. -/
def charIndicesNth (s : List Char) (n : Nat) : Option Nat :=
  charIndicesNthAux s n 0

/-- Rust `&s[..budget]` for a byte position `budget`: the characters fitting
wholly within the first `budget` bytes.  At character-boundary positions (the
only ones `extract_content` uses, coming from `char_indices`) this is the
exact prefix slice. -/
def byteTake : List Char → Nat → List Char
  | [], _ => []
  | c :: rest, budget =>
    if c.utf8Size ≤ budget then c :: byteTake rest (budget - c.utf8Size) else []

/- ===== Chunking layer from src/chunk.rs ===== -/

/-- `enum ChunkKind`. -/
inductive ChunkKind where
  | Heading (level : HeadingLevel)
  | Paragraph
  | CodeBlock
  | BlockQuote
  | List
  | Table
  | Rule
  | Metadata
  | Footnote
  | DefinitionList
  | Other
deriving DecidableEq, Repr

/-- `ChunkKind::as_str`. -/
def ChunkKind.as_str : ChunkKind → String
  | .Heading _ => "heading"
  | .Paragraph => "paragraph"
  | .CodeBlock => "code_block"
  | .BlockQuote => "blockquote"
  | .List => "list"
  | .Table => "table"
  | .Rule => "rule"
  | .Metadata => "metadata"
  | .Footnote => "footnote"
  | .DefinitionList => "definition_list"
  | .Other => "other"

/-- `struct Chunk` (content as a character list). -/
structure Chunk where
  index : Nat
  content : List Char
  kind : ChunkKind
deriving DecidableEq, Repr

/-- `struct ChunkConfig`. -/
structure ChunkConfig where
  preserve_formatting : Bool
  max_length : Option Nat
  include_empty : Bool
deriving DecidableEq, Repr

/-- `impl Default for ChunkConfig`. -/
def ChunkConfig.default : ChunkConfig :=
  { preserve_formatting := false, max_length := none, include_empty := false }

/-- `struct ChunkInfo`: an accumulated chunk descriptor.  `stop` is the Rust
field `end` (a Lean keyword). -/
structure ChunkInfo where
  start : Nat
  stop : Nat
  kind : ChunkKind
deriving DecidableEq, Repr

/-- `std::ops::Range<usize>` as produced by `into_offset_iter`; `stop` is the
Rust field `end`. -/
structure Range where
  start : Nat
  stop : Nat
deriving DecidableEq, Repr

/-- `Chunker::is_block_tag`. -/
def is_block_tag (tag : Tag) : Bool :=
  match tag with
  | .Paragraph | .Heading .. | .BlockQuote _ | .CodeBlock _ | .HtmlBlock | .List _
  | .FootnoteDefinition _ | .MetadataBlock _ | .Table _ | .DefinitionList
  | .ContainerBlock _ _ => true
  | _ => false

/-- `Chunker::tags_match`.  Each arm of the source `matches!` uses wildcard
payload patterns, so only the discriminants are compared. -/
def tags_match (start : Tag) (stop : TagEnd) : Bool :=
  match start, stop with
  | .Paragraph, .Paragraph => true
  | .Heading .., .Heading _ => true
  | .BlockQuote _, .BlockQuote _ => true
  | .CodeBlock _, .CodeBlock => true
  | .HtmlBlock, .HtmlBlock => true
  | .List _, .List _ => true
  | .FootnoteDefinition _, .FootnoteDefinition => true
  | .MetadataBlock _, .MetadataBlock _ => true
  | .Table _, .Table => true
  | .DefinitionList, .DefinitionList => true
  | .ContainerBlock _ _, .ContainerBlock _ => true
  | _, _ => false

/-- `Chunker::tag_to_kind`. -/
def tag_to_kind (tag : Tag) : ChunkKind :=
  match tag with
  | .Heading level _ _ _ => .Heading level
  | .Paragraph => .Paragraph
  | .BlockQuote _ => .BlockQuote
  | .CodeBlock _ => .CodeBlock
  | .HtmlBlock => .Other
  | .List _ => .List
  | .FootnoteDefinition _ => .Footnote
  | .MetadataBlock _ => .Metadata
  | .Table _ => .Table
  | .DefinitionList => .DefinitionList
  | .ContainerBlock _ _ => .Other
  | _ => .Other

/-- The event loop of `Chunker::extract_chunks`: depth counter (the source's
inferred `i32`, hence `Int`), stack of pending `(opening tag, start offset)`
pairs (list head = top of the `Vec`), and accumulated descriptors. -/
def extractLoop : List (Event × Range) → Int → List (Tag × Nat) → List ChunkInfo → List ChunkInfo
  | [], _, _, acc => acc
  | (event, range) :: rest, depth, stack, acc =>
    match event with
    | .Start tag =>
      let stack' := if is_block_tag tag ∧ depth = 0 then (tag, range.start) :: stack else stack
      extractLoop rest (depth + 1) stack' acc
    | .End tag_end =>
      let depth' := depth - 1
      if depth' = 0 then
        match stack with
        | (start_tag, start) :: stack_rest =>
          if tags_match start_tag tag_end then
            extractLoop rest depth' stack_rest
              (acc ++ [⟨start, range.stop, tag_to_kind start_tag⟩])
          else
            extractLoop rest depth' stack_rest acc
        | [] => extractLoop rest depth' [] acc
      else
        extractLoop rest depth' stack acc
    | .Rule =>
      if depth = 0 then
        extractLoop rest depth stack (acc ++ [⟨range.start, range.stop, ChunkKind.Rule⟩])
      else
        extractLoop rest depth stack acc
    | _ => extractLoop rest depth stack acc

/-- `Chunker::extract_chunks`, over the offset-annotated event stream the
source obtains from `Parser::new_ext(text, options).into_offset_iter()`. -/
def extract_chunks (events : List (Event × Range)) : List ChunkInfo :=
  extractLoop events 0 [] []

/-- The decomposed slicing stage of `Chunker::extract_content`:
`&self.text[chunk.start..chunk.end]`. -/
def rawContent (text : List Char) (chunk : ChunkInfo) : List Char :=
  utf8Slice text chunk.start chunk.stop

/-- The decomposed `processed` value of `Chunker::extract_content`: the raw
slice, trimmed unless `preserve_formatting` is set. -/
def processedContent (config : ChunkConfig) (text : List Char) (chunk : ChunkInfo) : List Char :=
  if config.preserve_formatting then rawContent text chunk
  else trimChars (rawContent text chunk)

/-- The fixed ellipsis marker appended by `format!` on truncation. -/
def ellipsis : List Char := ['.', '.', '.']

/-- `Chunker::extract_content`.  `processed.len() > max_len` is the source's
byte-length comparison; `char_indices().nth(max_len)` yields the byte position
used to cut the prefix. -/
def extract_content (config : ChunkConfig) (text : List Char) (chunk : ChunkInfo) : List Char :=
  if chunk.start ≥ chunk.stop ∨ chunk.stop > utf8Len text then []
  else
    let processed := processedContent config text chunk
    match config.max_length with
    | some max_len =>
      if utf8Len processed > max_len then
        match charIndicesNth processed max_len with
        | some pos => byteTake processed pos ++ ellipsis
        | none => processed
      else processed
    | none => processed

/-- The drained `Iterator for Chunker`: walks the descriptor list; `current`
is the source's `self.current` cursor, which is also the `index` stamped on a
yielded chunk and is incremented whether or not the chunk is yielded. -/
def collectFrom (text : List Char) (config : ChunkConfig) :
    List ChunkInfo → Nat → List Chunk
  | [], _ => []
  | chunk_info :: rest, current =>
    let content := extract_content config text chunk_info
    if config.include_empty || !content.isEmpty then
      ⟨current, content, chunk_info.kind⟩ :: collectFrom text config rest (current + 1)
    else
      collectFrom text config rest (current + 1)

/-- Modelled from the spec: the Parsing Engine (`Parser::new_ext` plus
`into_offset_iter`, whose sources `parse.rs`/`firstpass.rs` are not under
`src/`) is specified only by its contract — "output is a pure function of
(text, options, resolver behavior)" producing an "ordered stream of
(event, byte-range) pairs".  It is therefore modelled as an arbitrary pure
function of this type, supplied as an explicit parameter. -/
def ParseEngine : Type := List Char → Options → List (Event × Range)

/-- `chunk_markdown_with_config`: `Chunker::new` followed by `collect()`. -/
def chunk_markdown_with_config (engine : ParseEngine) (text : List Char)
    (options : Options) (config : ChunkConfig) : List Chunk :=
  collectFrom text config (extract_chunks (engine text options)) 0

/-- `chunk_markdown`: `Chunker::with_defaults` followed by `collect()`. -/
def chunk_markdown (engine : ParseEngine) (text : List Char) (options : Options) : List Chunk :=
  chunk_markdown_with_config engine text options ChunkConfig.default

/-- A well-formed offset-annotated stream whose first top-level block spans an
empty byte range: two balanced paragraphs, the first of width zero. -/
def eventStreamC2 : List (Event × Range) :=
  [(Event.Start Tag.Paragraph, ⟨0, 0⟩), (Event.End TagEnd.Paragraph, ⟨0, 0⟩),
   (Event.Start Tag.Paragraph, ⟨0, 5⟩), (Event.End TagEnd.Paragraph, ⟨0, 5⟩)]

/- ===== Supporting lemmas ===== -/

theorem utf8Len_nil : utf8Len [] = 0 := rfl

theorem utf8Len_cons (c : Char) (rest : List Char) :
    utf8Len (c :: rest) = c.utf8Size + utf8Len rest := by
  simp [utf8Len]

/-- Every character occupies at least one byte, so the character count never
exceeds the byte count. -/
theorem length_le_utf8Len (s : List Char) : s.length ≤ utf8Len s := by
  induction s with
  | nil => simp [utf8Len_nil]
  | cons c rest ih =>
    have := Char.utf8Size_pos c
    rw [utf8Len_cons]
    simp only [List.length_cons]
    omega

theorem charIndicesNthAux_none (s : List Char) :
    ∀ (n pos : Nat), s.length ≤ n → charIndicesNthAux s n pos = none := by
  induction s with
  | nil => intro n pos _; rfl
  | cons c rest ih =>
    intro n pos h
    cases n with
    | zero => simp at h
    | succ n => exact ih n (pos + c.utf8Size) (by simpa using h)

theorem charIndicesNthAux_some (s : List Char) :
    ∀ (n pos : Nat), n < s.length →
      charIndicesNthAux s n pos = some (pos + utf8Len (s.take n)) := by
  induction s with
  | nil => intro n pos h; simp at h
  | cons c rest ih =>
    intro n pos h
    cases n with
    | zero => simp [charIndicesNthAux, utf8Len_nil]
    | succ n =>
      have step : charIndicesNthAux (c :: rest) (n + 1) pos
          = charIndicesNthAux rest n (pos + c.utf8Size) := rfl
      rw [step, ih n (pos + c.utf8Size) (by simpa using h)]
      simp [List.take_succ_cons, utf8Len_cons]
      omega

/-- `char_indices().nth(n)` returns the byte offset of the `n`-th character:
the byte length of the `n`-character prefix. -/
theorem charIndicesNth_some (s : List Char) (n : Nat) (h : n < s.length) :
    charIndicesNth s n = some (utf8Len (s.take n)) := by
  rw [charIndicesNth, charIndicesNthAux_some s n 0 h]
  simp

theorem charIndicesNth_none (s : List Char) (n : Nat) (h : s.length ≤ n) :
    charIndicesNth s n = none :=
  charIndicesNthAux_none s n 0 h

/-- Byte-slicing at the byte offset of the `n`-th character keeps exactly the
first `n` characters (never splitting one). -/
theorem byteTake_utf8Len_take (s : List Char) :
    ∀ n : Nat, byteTake s (utf8Len (s.take n)) = s.take n := by
  induction s with
  | nil => intro n; simp [byteTake]
  | cons c rest ih =>
    intro n
    cases n with
    | zero =>
      have := Char.utf8Size_pos c
      simp only [List.take_zero, utf8Len_nil, byteTake]
      rw [if_neg (by omega)]
    | succ n =>
      simp only [List.take_succ_cons, utf8Len_cons, byteTake]
      rw [if_pos (by omega)]
      simpa using ih n

theorem collectFrom_index_ge (text : List Char) (config : ChunkConfig) :
    ∀ (l : List ChunkInfo) (current : Nat) (c : Chunk),
      c ∈ collectFrom text config l current → current ≤ c.index := by
  intro l
  induction l with
  | nil => intro current c h; simp [collectFrom] at h
  | cons ci rest ih =>
    intro current c h
    simp only [collectFrom] at h
    split at h
    · rcases List.mem_cons.mp h with h | h
      · subst h; exact Nat.le_refl _
      · exact Nat.le_of_succ_le (ih (current + 1) c h)
    · exact Nat.le_of_succ_le (ih (current + 1) c h)

theorem collectFrom_indices_pairwise (text : List Char) (config : ChunkConfig) :
    ∀ (l : List ChunkInfo) (current : Nat),
      ((collectFrom text config l current).map Chunk.index).Pairwise (· < ·) := by
  intro l
  induction l with
  | nil => intro current; simp [collectFrom]
  | cons ci rest ih =>
    intro current
    simp only [collectFrom]
    split
    · simp only [List.map_cons]
      refine List.pairwise_cons.mpr ⟨?_, ih (current + 1)⟩
      intro y hy
      rcases List.mem_map.mp hy with ⟨c, hc, rfl⟩
      exact Nat.lt_of_succ_le (collectFrom_index_ge text config rest (current + 1) c hc)
    · exact ih (current + 1)

theorem collectFrom_dense (text : List Char) (config : ChunkConfig)
    (h : config.include_empty = true) :
    ∀ (l : List ChunkInfo) (current : Nat),
      (collectFrom text config l current).map Chunk.index = List.range' current l.length := by
  intro l
  induction l with
  | nil => intro current; simp [collectFrom]
  | cons ci rest ih =>
    intro current
    simp only [collectFrom, h, Bool.true_or, if_pos, List.map_cons, List.length_cons,
      List.range'_succ]
    exact congrArg (current :: ·) (ih (current + 1))

/- ===== Claim theorems ===== -/

/-- C1, counterexample: the claim says a popped opener finalizes a chunk only
when its closing projection matches `tag_end` with the same discriminating
payload, so a Heading opener of level H1 must not match `TagEnd::Heading(H2)`.
In the code `tags_match` accepts the pair, and `extract_chunks` finalizes a
chunk for the mismatched-payload span instead of dropping it. -/
theorem heading_payload_mismatch_still_finalizes :
    tags_match (Tag.Heading .H1 none [] []) (TagEnd.Heading .H2) = true
    ∧ extract_chunks [(Event.Start (Tag.Heading .H1 none [] []), ⟨0, 5⟩),
        (Event.End (TagEnd.Heading .H2), ⟨0, 5⟩)]
      = [⟨0, 5, ChunkKind.Heading .H1⟩] :=
  ⟨by decide, by decide⟩

/-- C1, amended: when an End event brings the depth back to 0, the popped
opener finalizes a chunk spanning `[opener.start, range.end)` with kind
`tag_to_kind opener` exactly when `tags_match` accepts the pair, and
`tags_match` compares discriminants only — any payload on the opener and on
`tag_end` (heading level, blockquote kind, list orderedness, metadata kind,
container kind) is ignored; on a discriminant mismatch the span is silently
dropped. -/
theorem end_at_depth_zero_finalizes_iff_discriminants_match :
    (∀ (tag_end : TagEnd) (range : Range) (rest : List (Event × Range)) (start_tag : Tag)
        (start : Nat) (stack_rest : List (Tag × Nat)) (acc : List ChunkInfo),
      extractLoop ((Event.End tag_end, range) :: rest) 1 ((start_tag, start) :: stack_rest) acc
        = extractLoop rest 0 stack_rest
            (acc ++ if tags_match start_tag tag_end then
                [⟨start, range.stop, tag_to_kind start_tag⟩] else []))
    ∧ (∀ l₁ l₂ id classes attrs,
        tags_match (Tag.Heading l₁ id classes attrs) (TagEnd.Heading l₂) = true)
    ∧ (∀ k₁ k₂, tags_match (Tag.BlockQuote k₁) (TagEnd.BlockQuote k₂) = true)
    ∧ (∀ s b, tags_match (Tag.List s) (TagEnd.List b) = true)
    ∧ (∀ k₁ k₂, tags_match (Tag.MetadataBlock k₁) (TagEnd.MetadataBlock k₂) = true)
    ∧ (∀ k₁ label k₂, tags_match (Tag.ContainerBlock k₁ label) (TagEnd.ContainerBlock k₂) = true) := by
  refine ⟨?_, fun _ _ _ _ _ => rfl, fun _ _ => rfl, fun _ _ => rfl, fun _ _ => rfl,
    fun _ _ _ => rfl⟩
  intro tag_end range rest start_tag start stack_rest acc
  cases h : tags_match start_tag tag_end <;> simp [extractLoop, h]

/-- C2, counterexample: with `include_empty = false` (the default config), a
chunk descriptor whose content is empty is skipped but still consumes an index
value: on a balanced stream whose first top-level paragraph spans an empty
byte range, the single yielded chunk carries index 1, so the yielded indices
are not the contiguous range `0..k`. -/
theorem empty_chunk_consumes_index_value :
    ChunkConfig.default.include_empty = false
    ∧ (chunk_markdown_with_config (fun _ _ => eventStreamC2) "hello".data Options.empty
        ChunkConfig.default).map Chunk.index
      ≠ List.range (chunk_markdown_with_config (fun _ _ => eventStreamC2) "hello".data
          Options.empty ChunkConfig.default).length :=
  ⟨rfl, by decide⟩

/-- C2, amended: each yielded chunk's index is the position of its descriptor
in the internal descriptor list, so the yielded indices are strictly
increasing in document order but need not be contiguous when `include_empty`
is false (a skipped empty chunk consumes an index value); they form the
contiguous range `0..k` over the whole descriptor list exactly when nothing is
skipped, in particular whenever `include_empty = true`. -/
theorem yielded_indices_increasing_dense_when_include_empty :
    (∀ (engine : ParseEngine) (text : List Char) (options : Options) (config : ChunkConfig),
      ((chunk_markdown_with_config engine text options config).map Chunk.index).Pairwise (· < ·))
    ∧ (∀ (engine : ParseEngine) (text : List Char) (options : Options) (config : ChunkConfig),
        config.include_empty = true →
        (chunk_markdown_with_config engine text options config).map Chunk.index
          = List.range (extract_chunks (engine text options)).length) := by
  constructor
  · intro engine text options config
    exact collectFrom_indices_pairwise text config (extract_chunks (engine text options)) 0
  · intro engine text options config h
    rw [chunk_markdown_with_config, collectFrom_dense text config h, List.range_eq_range']

/-- C2, witness for the amended theorem's hypothesis, at a concrete stream
with two descriptors and `include_empty = true`. -/
theorem yielded_indices_dense_witness :
    (ChunkConfig.mk false none true).include_empty = true
    ∧ (chunk_markdown_with_config (fun _ _ => eventStreamC2) "hello".data Options.empty
        (ChunkConfig.mk false none true)).map Chunk.index
      = List.range (extract_chunks ((fun _ _ => eventStreamC2) "hello".data Options.empty)).length :=
  ⟨rfl, yielded_indices_increasing_dense_when_include_empty.2
    (fun _ _ => eventStreamC2) "hello".data Options.empty (ChunkConfig.mk false none true) rfl⟩

/-- C3: for an in-bounds chunk processed with `max_length = n`, the cap acts
on characters (Unicode scalar values), not bytes, even though the source
compares `processed.len()` (bytes) against `n`: when the processed content has
at most `n` characters it is returned unchanged (so the yielded content has
`min(n, original length) = original length` characters and no ellipsis), and
when it has more than `n` characters the result is exactly its first `n`
characters — never a split character — followed by the fixed ellipsis marker,
so stripping the ellipsis leaves exactly `min(n, original length) = n`
characters. -/
theorem max_length_caps_characters (config : ChunkConfig) (text : List Char)
    (chunk : ChunkInfo) (n : Nat) (hmax : config.max_length = some n)
    (hlt : chunk.start < chunk.stop) (hle : chunk.stop ≤ utf8Len text) :
    ((processedContent config text chunk).length ≤ n →
      extract_content config text chunk = processedContent config text chunk)
    ∧ (n < (processedContent config text chunk).length →
      extract_content config text chunk
        = (processedContent config text chunk).take n ++ ellipsis
      ∧ ((processedContent config text chunk).take n).length = n) := by
  have hguard : ¬(chunk.start ≥ chunk.stop ∨ chunk.stop > utf8Len text) := by omega
  have key : extract_content config text chunk
      = if utf8Len (processedContent config text chunk) > n then
          (match charIndicesNth (processedContent config text chunk) n with
            | some pos => byteTake (processedContent config text chunk) pos ++ ellipsis
            | none => processedContent config text chunk)
        else processedContent config text chunk := by
    rw [extract_content, if_neg hguard, hmax]
  rw [key]
  constructor
  · intro hlen
    by_cases hb : utf8Len (processedContent config text chunk) > n
    · rw [if_pos hb, charIndicesNth_none _ _ hlen]
    · rw [if_neg hb]
  · intro hlen
    have hb : utf8Len (processedContent config text chunk) > n :=
      Nat.lt_of_lt_of_le hlen (length_le_utf8Len _)
    rw [if_pos hb, charIndicesNth_some _ _ hlen]
    refine ⟨?_, ?_⟩
    · show byteTake (processedContent config text chunk)
          (utf8Len ((processedContent config text chunk).take n)) ++ ellipsis
        = (processedContent config text chunk).take n ++ ellipsis
      rw [byteTake_utf8Len_take]
    · rw [List.length_take]
      omega

/-- C3, witness: `"abcdef"` capped at 3 characters yields `"abc"` plus the
ellipsis. -/
theorem max_length_caps_characters_witness :
    (ChunkConfig.mk false (some 3) false).max_length = some 3
    ∧ (0 : Nat) < 6 ∧ (6 : Nat) ≤ utf8Len "abcdef".data
    ∧ (((processedContent (ChunkConfig.mk false (some 3) false) "abcdef".data
          ⟨0, 6, ChunkKind.Paragraph⟩).length ≤ 3 →
        extract_content (ChunkConfig.mk false (some 3) false) "abcdef".data
            ⟨0, 6, ChunkKind.Paragraph⟩
          = processedContent (ChunkConfig.mk false (some 3) false) "abcdef".data
              ⟨0, 6, ChunkKind.Paragraph⟩)
      ∧ (3 < (processedContent (ChunkConfig.mk false (some 3) false) "abcdef".data
            ⟨0, 6, ChunkKind.Paragraph⟩).length →
        extract_content (ChunkConfig.mk false (some 3) false) "abcdef".data
            ⟨0, 6, ChunkKind.Paragraph⟩
          = (processedContent (ChunkConfig.mk false (some 3) false) "abcdef".data
              ⟨0, 6, ChunkKind.Paragraph⟩).take 3 ++ ellipsis
        ∧ ((processedContent (ChunkConfig.mk false (some 3) false) "abcdef".data
              ⟨0, 6, ChunkKind.Paragraph⟩).take 3).length = 3)) :=
  ⟨rfl, by decide, by decide,
    max_length_caps_characters (ChunkConfig.mk false (some 3) false) "abcdef".data
      ⟨0, 6, ChunkKind.Paragraph⟩ 3 rfl (by decide) (by decide)⟩

/-- C4: `HeadingLevel::try_from` succeeds with the level of matching ordinal
exactly on inputs 1 through 6, and on every other input fails with
`InvalidHeadingLevel` carrying the invalid input itself rather than clamping. -/
theorem heading_level_try_from_spec (n : Nat) :
    ((∃ l, HeadingLevel.try_from n = Except.ok l ∧ l.toNat = n) ↔ (1 ≤ n ∧ n ≤ 6))
    ∧ (¬(1 ≤ n ∧ n ≤ 6) → HeadingLevel.try_from n = Except.error ⟨n⟩) := by
  constructor
  · constructor
    · rintro ⟨l, hok, hv⟩
      match n, l, hok with
      | 1, .H1, _ => omega
      | 2, .H2, _ => omega
      | 3, .H3, _ => omega
      | 4, .H4, _ => omega
      | 5, .H5, _ => omega
      | 6, .H6, _ => omega
    · rintro ⟨h1, h6⟩
      interval_cases n
      · exact ⟨.H1, rfl, rfl⟩
      · exact ⟨.H2, rfl, rfl⟩
      · exact ⟨.H3, rfl, rfl⟩
      · exact ⟨.H4, rfl, rfl⟩
      · exact ⟨.H5, rfl, rfl⟩
      · exact ⟨.H6, rfl, rfl⟩
  · intro h
    match n with
    | 0 => rfl
    | 1 | 2 | 3 | 4 | 5 | 6 => exact absurd (by omega) h
    | m + 7 => rfl

/-- C4, witness: at input 9 the conversion fails with the error carrying 9,
and exactly the ordinals 1–6 succeed. -/
theorem heading_level_try_from_witness :
    ¬(1 ≤ 9 ∧ 9 ≤ 6)
    ∧ HeadingLevel.try_from 9 = Except.error ⟨9⟩
    ∧ ((∃ l, HeadingLevel.try_from 9 = Except.ok l ∧ l.toNat = 9) ↔ (1 ≤ 9 ∧ 9 ≤ 6)) :=
  ⟨by decide, (heading_level_try_from_spec 9).2 (by decide), (heading_level_try_from_spec 9).1⟩

/-- C5: a chunk descriptor whose recorded end offset exceeds the source
text's byte length, or whose start offset exceeds its end offset, yields empty
content; `extract_content` is total, so extraction never aborts the chunking
operation. -/
theorem extract_content_out_of_bounds_empty (config : ChunkConfig) (text : List Char)
    (chunk : ChunkInfo) (h : chunk.stop < chunk.start ∨ utf8Len text < chunk.stop) :
    extract_content config text chunk = [] := by
  rw [extract_content, if_pos]
  omega

/-- C5, witness: a descriptor with start 5 and end 2 over `"ab"` yields empty
content. -/
theorem extract_content_out_of_bounds_empty_witness :
    ((2 : Nat) < 5 ∨ utf8Len "ab".data < 2)
    ∧ extract_content ChunkConfig.default "ab".data ⟨5, 2, ChunkKind.Paragraph⟩ = [] :=
  ⟨Or.inl (by decide),
    extract_content_out_of_bounds_empty ChunkConfig.default "ab".data
      ⟨5, 2, ChunkKind.Paragraph⟩ (Or.inl (by decide))⟩

/-- C6: `Tag::to_end` maps every variant to the `TagEnd` of the same
discriminant carrying only the discriminating pairing data: the level for
Heading, orderedness (presence of a starting number) for List, the blockquote
kind, the container kind without the label, and the metadata kind; every other
variant maps to a payload-free `TagEnd`, with the opener's remaining payload
(ids, classes, attributes, code-block kind, labels, alignments, link data)
dropped. -/
theorem to_end_carries_only_discriminating_data :
    (∀ level id classes attrs, (Tag.Heading level id classes attrs).to_end = TagEnd.Heading level)
    ∧ (∀ number, (Tag.List number).to_end = TagEnd.List number.isSome)
    ∧ (∀ kind, (Tag.BlockQuote kind).to_end = TagEnd.BlockQuote kind)
    ∧ (∀ kind label, (Tag.ContainerBlock kind label).to_end = TagEnd.ContainerBlock kind)
    ∧ (∀ kind, (Tag.MetadataBlock kind).to_end = TagEnd.MetadataBlock kind)
    ∧ (∀ kind, (Tag.CodeBlock kind).to_end = TagEnd.CodeBlock)
    ∧ (∀ label, (Tag.FootnoteDefinition label).to_end = TagEnd.FootnoteDefinition)
    ∧ (∀ alignments, (Tag.Table alignments).to_end = TagEnd.Table)
    ∧ (∀ lt url title id, (Tag.Link lt url title id).to_end = TagEnd.Link)
    ∧ (∀ lt url title id, (Tag.Image lt url title id).to_end = TagEnd.Image)
    ∧ Tag.Paragraph.to_end = TagEnd.Paragraph
    ∧ Tag.HtmlBlock.to_end = TagEnd.HtmlBlock
    ∧ Tag.Item.to_end = TagEnd.Item
    ∧ Tag.DefinitionList.to_end = TagEnd.DefinitionList
    ∧ Tag.DefinitionListTitle.to_end = TagEnd.DefinitionListTitle
    ∧ Tag.DefinitionListDefinition.to_end = TagEnd.DefinitionListDefinition
    ∧ Tag.TableHead.to_end = TagEnd.TableHead
    ∧ Tag.TableRow.to_end = TagEnd.TableRow
    ∧ Tag.TableCell.to_end = TagEnd.TableCell
    ∧ Tag.Emphasis.to_end = TagEnd.Emphasis
    ∧ Tag.Strong.to_end = TagEnd.Strong
    ∧ Tag.Strikethrough.to_end = TagEnd.Strikethrough
    ∧ Tag.Superscript.to_end = TagEnd.Superscript
    ∧ Tag.Subscript.to_end = TagEnd.Subscript :=
  ⟨fun _ _ _ _ => rfl, fun _ => rfl, fun _ => rfl, fun _ _ => rfl, fun _ => rfl,
    fun _ => rfl, fun _ => rfl, fun _ => rfl, fun _ _ _ _ => rfl, fun _ _ _ _ => rfl,
    rfl, rfl, rfl, rfl, rfl, rfl, rfl, rfl, rfl, rfl, rfl, rfl, rfl, rfl⟩

/-- C7: `tag_to_kind` is a total function on `Tag` (hence deterministic);
a Heading maps to the heading kind carrying its level, the seven listed block
tags map to their own pairwise-distinct kinds, and HtmlBlock and
ContainerBlock both collapse to the catch-all Other kind. -/
theorem tag_to_kind_total_spec :
    (∀ level id classes attrs,
      tag_to_kind (Tag.Heading level id classes attrs) = ChunkKind.Heading level)
    ∧ (∀ kind, tag_to_kind (Tag.CodeBlock kind) = ChunkKind.CodeBlock)
    ∧ (∀ kind, tag_to_kind (Tag.BlockQuote kind) = ChunkKind.BlockQuote)
    ∧ (∀ number, tag_to_kind (Tag.List number) = ChunkKind.List)
    ∧ (∀ alignments, tag_to_kind (Tag.Table alignments) = ChunkKind.Table)
    ∧ (∀ label, tag_to_kind (Tag.FootnoteDefinition label) = ChunkKind.Footnote)
    ∧ (∀ kind, tag_to_kind (Tag.MetadataBlock kind) = ChunkKind.Metadata)
    ∧ tag_to_kind Tag.DefinitionList = ChunkKind.DefinitionList
    ∧ tag_to_kind Tag.HtmlBlock = ChunkKind.Other
    ∧ (∀ kind label, tag_to_kind (Tag.ContainerBlock kind label) = ChunkKind.Other)
    ∧ [ChunkKind.CodeBlock, ChunkKind.BlockQuote, ChunkKind.List, ChunkKind.Table,
        ChunkKind.Footnote, ChunkKind.Metadata, ChunkKind.DefinitionList,
        ChunkKind.Other].Nodup
    ∧ (∀ level,
        ChunkKind.Heading level ∉ [ChunkKind.CodeBlock, ChunkKind.BlockQuote,
          ChunkKind.List, ChunkKind.Table, ChunkKind.Footnote, ChunkKind.Metadata,
          ChunkKind.DefinitionList, ChunkKind.Other]) :=
  ⟨fun _ _ _ _ => rfl, fun _ => rfl, fun _ => rfl, fun _ => rfl, fun _ => rfl,
    fun _ => rfl, fun _ => rfl, rfl, rfl, fun _ _ => rfl, by decide,
    fun level => by simp⟩

/-- C8: the old-footnote-syntax flag implies the general footnotes flag (its
bit pattern literally contains the `ENABLE_FOOTNOTES` bit), and the
GFM-footnote predicate holds exactly when `ENABLE_FOOTNOTES` is set and
`ENABLE_OLD_FOOTNOTES` is not. -/
theorem old_footnotes_implies_footnotes :
    (∀ o : Options, o.contains Options.ENABLE_OLD_FOOTNOTES = true →
      o.contains Options.ENABLE_FOOTNOTES = true)
    ∧ (∀ o : Options, o.has_gfm_footnotes = true ↔
        (o.contains Options.ENABLE_FOOTNOTES = true
          ∧ o.contains Options.ENABLE_OLD_FOOTNOTES = false)) := by
  constructor
  · intro o h
    simp only [Options.contains, Options.ENABLE_OLD_FOOTNOTES, Options.ENABLE_FOOTNOTES,
      beq_iff_eq] at h ⊢
    have e : ((1 <<< 9 ||| 1 <<< 2 : Nat) &&& (1 <<< 2 : Nat)) = (1 <<< 2 : Nat) := by decide
    calc o.bits &&& (1 <<< 2)
        = o.bits &&& ((1 <<< 9 ||| 1 <<< 2) &&& (1 <<< 2)) := by rw [e]
      _ = (o.bits &&& (1 <<< 9 ||| 1 <<< 2)) &&& (1 <<< 2) := (Nat.and_assoc _ _ _).symm
      _ = (1 <<< 9 ||| 1 <<< 2) &&& (1 <<< 2) := by rw [h]
      _ = 1 <<< 2 := e
  · intro o
    simp [Options.has_gfm_footnotes]

/-- C8, witness: the flag value `ENABLE_OLD_FOOTNOTES` itself contains the
old-footnotes bits, hence contains `ENABLE_FOOTNOTES`. -/
theorem old_footnotes_implies_footnotes_witness :
    Options.ENABLE_OLD_FOOTNOTES.contains Options.ENABLE_OLD_FOOTNOTES = true
    ∧ Options.ENABLE_OLD_FOOTNOTES.contains Options.ENABLE_FOOTNOTES = true :=
  ⟨by decide, old_footnotes_implies_footnotes.1 Options.ENABLE_OLD_FOOTNOTES (by decide)⟩

/-- C9: the whole chunking pipeline is a pure function of the engine, text,
options and config; two invocations on the same inputs yield identical chunk
sequences, and no state survives between invocations (each call re-derives the
descriptor list from scratch via `extract_chunks`). -/
theorem chunking_deterministic (engine : ParseEngine) (text : List Char)
    (options : Options) (config : ChunkConfig) :
    chunk_markdown_with_config engine text options config
      = chunk_markdown_with_config engine text options config
    ∧ chunk_markdown_with_config engine text options config
      = collectFrom text config (extract_chunks (engine text options)) 0 :=
  ⟨rfl, rfl⟩

/-- C10: every recognized top-level block tag matches its own canonical
closing projection, so a top-level block closed by its projected end marker is
never dropped by the chunker. -/
theorem block_tag_matches_own_end (t : Tag) (h : is_block_tag t = true) :
    tags_match t t.to_end = true := by
  cases t <;> first | rfl | simp [is_block_tag] at h

/-- C10, witness: at the Paragraph tag. -/
theorem block_tag_matches_own_end_witness :
    is_block_tag Tag.Paragraph = true
    ∧ tags_match Tag.Paragraph Tag.Paragraph.to_end = true :=
  ⟨by decide, block_tag_matches_own_end Tag.Paragraph (by decide)⟩

end Cmark
